import Mathlib

/-!
Verification of the batch blog-content generator (`tistory_optimizer.py`).

The Python source is shallowly embedded below.  Text is modelled as
`List Char` / `String` (Python `str`, one element per code point); the
regular-expression substitutions of `remove_markdown` are modelled by
deterministic left-to-right scanners that mirror `re.sub` semantics for
the concrete patterns of the source (each pattern is matched at every
scan position, non-greedy / greedy parts resolved as the Python engine
does for these specific patterns; the character classes `\s` and `\d`
are modelled by their ASCII fragments, which is exact on ASCII inputs).
All scanners use an explicit fuel argument equal to the input length so
that every definition is structurally recursive and computable by the
kernel; each scanner step consumes at least one input character, so
fuel `l.length` reproduces the unbounded scan.
-/

/-- ASCII fragment of Python's `\s` / `str.split()` / `str.strip()`
whitespace: space, tab, newline, carriage return, vertical tab, form feed. -/
def isPySpace (c : Char) : Bool :=
  c = ' ' || c = '\t' || c = '\n' || c = '\r' || c = '\x0b' || c = '\x0c'

/-- The backquote character (code point 96), used by the code-span patterns. -/
def backquote : Char := Char.ofNat 96

/-- The apostrophe character (code point 39), escaped by `html.escape`. -/
def apostrophe : Char := Char.ofNat 39

/-- Python `str.strip()` (ASCII fragment): drop whitespace from both ends. -/
def pyStrip (l : List Char) : List Char :=
  ((l.dropWhile isPySpace).reverse.dropWhile isPySpace).reverse

/-! ### Generic `re.sub` scanners

`subScanF m fuel l` models `re.sub(pat, rep, l)` for an unanchored
pattern: `m` tries the pattern at the current position; on a match it
returns the replacement text and the rest of the input after the match
(the whole match always spans at least one character), and scanning
resumes after the match; on failure the scanner emits one character and
retries at the next position.

`stripAnchoredF m fuel atStart l` models `re.sub(pat, '', l, flags=re.MULTILINE)`
for a `^`-anchored deleting pattern: `m` is tried only at line starts
(position 0 or right after a newline); on a match it reports whether the
last consumed character was a newline (which makes the resume position a
line start again) and the rest of the input. -/

def subScanF (m : List Char → Option (List Char × List Char)) :
    Nat → List Char → List Char
  | 0, l => l
  | _ + 1, [] => []
  | fuel + 1, c :: cs =>
    match m (c :: cs) with
    | some (rep, rest) => rep ++ subScanF m fuel rest
    | none => c :: subScanF m fuel cs

def stripAnchoredF (m : List Char → Option (Bool × List Char)) :
    Nat → Bool → List Char → List Char
  | 0, _, l => l
  | _ + 1, _, [] => []
  | fuel + 1, atStart, c :: cs =>
    if atStart then
      match m (c :: cs) with
      | some (nl, rest) => stripAnchoredF m fuel nl rest
      | none => c :: stripAnchoredF m fuel (c = '\n') cs
    else
      c :: stripAnchoredF m fuel (c = '\n') cs

/-! ### The individual patterns of `remove_markdown` -/

/-- Pattern `^#{1,6}\s+` (deleted): one to six `#` (greedy, more than six cannot
backtrack into a match because the following character would again be `#`),
then a maximal nonempty whitespace run. -/
def headingMatch (l : List Char) : Option (Bool × List Char) :=
  let hs := l.takeWhile (fun c => c = '#')
  if 1 ≤ hs.length ∧ hs.length ≤ 6 then
    let r1 := l.dropWhile (fun c => c = '#')
    let ws := r1.takeWhile isPySpace
    if 1 ≤ ws.length then
      some (ws.getLastD ' ' = '\n', r1.dropWhile isPySpace)
    else none
  else none

/-- Close-delimiter search for `D(.+?)D`: given the text after the opening
delimiter, find the shortest nonempty newline-free inner text followed by
the closing delimiter `d`; return the inner text and the rest after the
closing delimiter. -/
def emphClose (d : List Char) : List Char → Option (List Char × List Char)
  | [] => none
  | c :: cs =>
    if c = '\n' then none
    else if d.isPrefixOf cs then some ([c], cs.drop d.length)
    else
      match emphClose d cs with
      | some (inner, rest) => some (c :: inner, rest)
      | none => none

/-- Pattern `D(.+?)D → \1` for a literal delimiter `d` (the source uses `**`, `*`,
`__`, `_`): opening delimiter, shortest nonempty newline-free inner text,
closing delimiter; replaced by the inner text. -/
def emphMatch (d : List Char) (l : List Char) : Option (List Char × List Char) :=
  if d.isPrefixOf l then emphClose d (l.drop d.length) else none

/-- Pattern `^\s*[-*+]\s+` (deleted): maximal whitespace run, a list bullet,
then a maximal nonempty whitespace run (no backtracking is possible since
the bullet characters are not whitespace). -/
def listMarkerMatch (l : List Char) : Option (Bool × List Char) :=
  match l.dropWhile isPySpace with
  | m :: r2 =>
    if m = '-' ∨ m = '*' ∨ m = '+' then
      let ws2 := r2.takeWhile isPySpace
      if 1 ≤ ws2.length then
        some (ws2.getLastD ' ' = '\n', r2.dropWhile isPySpace)
      else none
    else none
  | [] => none

/-- Pattern `^\s*\d+\.\s+` (deleted): maximal whitespace run, a maximal nonempty
ASCII digit run, a literal dot, then a maximal nonempty whitespace run. -/
def numMarkerMatch (l : List Char) : Option (Bool × List Char) :=
  let r1 := l.dropWhile isPySpace
  let ds := r1.takeWhile Char.isDigit
  if 1 ≤ ds.length then
    match r1.dropWhile Char.isDigit with
    | '.' :: r2 =>
      let ws2 := r2.takeWhile isPySpace
      if 1 ≤ ws2.length then
        some (ws2.getLastD ' ' = '\n', r2.dropWhile isPySpace)
      else none
    | _ => none
  else none

/-- Pattern `\[([^\]]+)\]\([^)]+\) → \1`: bracketed nonempty link text (any
characters except `]`), then a parenthesised nonempty URL (any characters
except `)`); replaced by the link text. -/
def linkMatch : List Char → Option (List Char × List Char)
  | '[' :: r1 =>
    let inner := r1.takeWhile (fun c => c ≠ ']')
    if 1 ≤ inner.length then
      match r1.dropWhile (fun c => c ≠ ']') with
      | ']' :: '(' :: r2 =>
        let url := r2.takeWhile (fun c => c ≠ ')')
        if 1 ≤ url.length then
          match r2.dropWhile (fun c => c ≠ ')') with
          | ')' :: rest => some (inner, rest)
          | _ => none
        else none
      | _ => none
    else none
  | _ => none

/-- Pattern `^>\s+` (deleted): a quote marker then a maximal nonempty whitespace run. -/
def quoteMatch (l : List Char) : Option (Bool × List Char) :=
  match l with
  | c :: r1 =>
    if c = '>' then
      let ws := r1.takeWhile isPySpace
      if 1 ≤ ws.length then
        some (ws.getLastD ' ' = '\n', r1.dropWhile isPySpace)
      else none
    else none
  | [] => none

/-- Three backquotes, as a list. -/
def fence : List Char := [backquote, backquote, backquote]

/-- Fenced code block (deleted): three backquotes, a maximal possibly-empty
backquote-free run, three backquotes.  (`[^`]*` cannot backtrack past a
backquote, so fewer than three closing backquotes means no match at this
position.) -/
def codeBlockMatch (l : List Char) : Option (List Char × List Char) :=
  if fence.isPrefixOf l then
    let r1 := l.drop 3
    let r2 := r1.dropWhile (fun c => c ≠ backquote)
    if fence.isPrefixOf r2 then some ([], r2.drop 3) else none
  else none

/-- Inline code (replaced by its content): a backquote, a maximal nonempty
backquote-free run, a backquote. -/
def inlineCodeMatch (l : List Char) : Option (List Char × List Char) :=
  match l with
  | c :: r1 =>
    if c = backquote then
      let inner := r1.takeWhile (fun d => d ≠ backquote)
      if 1 ≤ inner.length then
        match r1.dropWhile (fun d => d ≠ backquote) with
        | d :: rest => if d = backquote then some (inner, rest) else none
        | [] => none
      else none
    else none
  | [] => none

/-- Run an unanchored substitution over a whole text. -/
def applyScan (m : List Char → Option (List Char × List Char)) (l : List Char) :
    List Char :=
  subScanF m l.length l

/-- Run a `^`-anchored deletion over a whole text (position 0 is a line start). -/
def applyAnchored (m : List Char → Option (Bool × List Char)) (l : List Char) :
    List Char :=
  stripAnchoredF m l.length true l

/-- Method `TistoryContentGenerator.remove_markdown`: the eleven `re.sub` passes
of the source, in source order, followed by `str.strip()`. -/
def remove_markdown (l : List Char) : List Char :=
  let t1 := applyAnchored headingMatch l
  let t2 := applyScan (emphMatch ['*', '*']) t1
  let t3 := applyScan (emphMatch ['*']) t2
  let t4 := applyScan (emphMatch ['_', '_']) t3
  let t5 := applyScan (emphMatch ['_']) t4
  let t6 := applyAnchored listMarkerMatch t5
  let t7 := applyAnchored numMarkerMatch t6
  let t8 := applyScan linkMatch t7
  let t9 := applyAnchored quoteMatch t8
  let t10 := applyScan codeBlockMatch t9
  let t11 := applyScan inlineCodeMatch t10
  pyStrip t11

/-- Wrapper: `remove_markdown` on `String`. -/
def remove_markdown_str (s : String) : String :=
  String.mk (remove_markdown s.data)

/-! ### Splitting and word counting (`str.split()` with no separator) -/

/-- Python `str.split()` (no separator): maximal runs of non-whitespace characters,
whitespace runs discarded.  Fuel-driven; each step consumes at least one
character, so fuel `l.length` suffices. -/
def pySplitWsF : Nat → List Char → List (List Char)
  | 0, _ => []
  | _ + 1, [] => []
  | fuel + 1, c :: cs =>
    if isPySpace c then pySplitWsF fuel cs
    else
      (c :: cs.takeWhile (fun d => !isPySpace d)) ::
        pySplitWsF fuel (cs.dropWhile (fun d => !isPySpace d))

/-- Python `len(s.split())`: the number of whitespace-delimited tokens of `s`. -/
def pyWordCount (s : String) : Nat :=
  (pySplitWsF s.data.length s.data).length

/-! ### Data model

`GenResult` is the dictionary returned by `generate_content`
(`{'success': True, 'content', 'char_count', 'word_count', 'topic',
'keywords', 'model'}` or `{'success': False, 'error'}`); `ResultRecord`
is the per-topic entry appended to `self.results` by the batch thread. -/

inductive GenResult where
  | success (content : String) (char_count word_count : Nat)
      (topic keywords model : String)
  | failure (error : String)
deriving DecidableEq, Repr

def GenResult.isSuccess : GenResult → Bool
  | .success .. => true
  | .failure _ => false

/-- Field access `r['result'].get('char_count', 0)`. -/
def GenResult.charCount : GenResult → Nat
  | .success _ cc _ _ _ _ => cc
  | .failure _ => 0

structure ResultRecord where
  topic : String
  result : GenResult
  timestamp : String
deriving DecidableEq, Repr

/-! ### `generate_content`

The HTTP interaction is modelled by a `CompletionOutcome` describing what
the single `requests.post` produced: a 200 response whose parsed body
yields `choices[0].message.content`, a non-200 response (with the error
detail either parsed from the JSON body, unparsable, or absent because
`response.text` is empty), a timeout, a connection error, or any other
exception. -/

inductive ErrBody where
  | noText
  | parsed (msg : String)
  | unparsed (body : String)
deriving DecidableEq, Repr

inductive CompletionOutcome where
  | ok (raw : String)
  | httpErr (status : Nat) (body : ErrBody)
  | timeout
  | connError
  | exn (msg : String)
deriving DecidableEq, Repr

/-- Method `TistoryContentGenerator.generate_content`, from the `requests.post`
onward (prompt construction does not affect the recorded result). -/
def generate_content (topic keywords model : String)
    (out : CompletionOutcome) : GenResult :=
  match out with
  | .ok raw =>
    let content := remove_markdown_str raw
    .success content content.length (pyWordCount content) topic keywords model
  | .httpErr status body =>
    let base := "API 오류: " ++ toString status
    .failure <| match body with
      | .noText => base
      | .parsed msg => base ++ "\n상세: " ++ msg
      | .unparsed t => base ++ "\n응답: " ++ String.mk (t.data.take 200)
  | .timeout => .failure "요청 시간 초과 (120초). 네트워크 연결을 확인하세요."
  | .connError => .failure "네트워크 연결 오류. 인터넷 연결을 확인하세요."
  | .exn msg => .failure ("예상치 못한 오류: " ++ msg)

/-! ### `get_available_models`

The HTTP GET is modelled by a `ModelsResponse`: a response with a status
code and (for 200) the list of `id` fields of the parsed body, or a raised
exception (any other failure, including a JSON body that fails to parse). -/

inductive ModelsResponse where
  | response (status : Nat) (ids : List String)
  | exn (msg : String)
deriving DecidableEq, Repr

def ModelsResponse.isFailure : ModelsResponse → Bool
  | .response s _ => s ≠ 200
  | .exn _ => true

/-- Python substring containment (`needle in haystack`). -/
def isSubstringOf (n : List Char) : List Char → Bool
  | [] => n.isEmpty
  | c :: cs => n.isPrefixOf (c :: cs) || isSubstringOf n cs

/-- Filter `any(keyword in model_id for keyword in ['gpt-4', 'gpt-3.5', 'gpt-4o'])`. -/
def hasChatKeyword (m : String) : Bool :=
  isSubstringOf "gpt-4".data m.data || isSubstringOf "gpt-3.5".data m.data ||
    isSubstringOf "gpt-4o".data m.data

/-- The fixed priority set tested by the reordering loop. -/
def priority_model_list : List String :=
  ["gpt-4o", "gpt-4o-mini", "gpt-4-turbo", "gpt-4", "gpt-3.5-turbo"]

def isPriorityModel (m : String) : Bool :=
  priority_model_list.contains m

/-- Code-point lexicographic strict order on character lists
(Python `str` comparison). -/
def lexLt : List Char → List Char → Bool
  | [], [] => false
  | [], _ :: _ => true
  | _ :: _, [] => false
  | a :: as, b :: bs => if a < b then true else if b < a then false else lexLt as bs

def strLt (a b : String) : Bool := lexLt a.data b.data

/-- Insertion step of `sorted` (stable; for strings, items are their own
keys, so any correct sort produces the same list). -/
def insertSorted (x : String) : List String → List String
  | [] => [x]
  | y :: ys => if strLt x y then x :: y :: ys else y :: insertSorted x ys

/-- Python `sorted` on a list of strings. -/
def pySorted : List String → List String
  | [] => []
  | x :: xs => insertSorted x (pySorted xs)

/-- The `for model in sorted(models): ...append...` loop: distribute the
sorted matches over the priority and other lists, preserving order. -/
def partitionPriority : List String → List String × List String
  | [] => ([], [])
  | m :: ms =>
    let (p, o) := partitionPriority ms
    if isPriorityModel m then (m :: p, o) else (p, m :: o)

/-- The hardcoded default model list returned on any failure. -/
def fallback_models : List String :=
  ["gpt-4o", "gpt-4o-mini", "gpt-4-turbo", "gpt-3.5-turbo"]

/-- Method `TistoryContentGenerator.get_available_models`. -/
def get_available_models (r : ModelsResponse) : List String :=
  match r with
  | .response status ids =>
    if status = 200 then
      let models := ids.filter hasChatKeyword
      let pair := partitionPriority (pySorted models)
      pair.1 ++ pair.2
    else fallback_models
  | .exn _ => fallback_models

/-! ### `start_batch_generation`: the generation-count limit -/

/-- Value of a nonempty ASCII digit run. -/
def parseDigits (l : List Char) : Option Nat :=
  if l ≠ [] ∧ l.all Char.isDigit then
    some (l.foldl (fun acc c => 10 * acc + (c.toNat - 48)) 0)
  else none

/-- Python `int(s)` (ASCII fragment: surrounding whitespace stripped, one
optional sign, a nonempty digit run; underscore grouping and non-ASCII
digits are not modelled). -/
def pyParseInt (s : String) : Option Int :=
  match pyStrip s.data with
  | '+' :: ds => (parseDigits ds).map (fun n => (n : Int))
  | '-' :: ds => (parseDigits ds).map (fun n => -(n : Int))
  | ds => (parseDigits ds).map (fun n => (n : Int))

/-- Limit handling `try: limit = int(...); if limit <= 0: limit = 100; except: limit = 100`. -/
def effective_limit (s : String) : Int :=
  match pyParseInt s with
  | some v => if v ≤ 0 then 100 else v
  | none => 100

/-- Truncation `self.topics_list = self.topics_list[:limit]`. -/
def start_topics (topics : List String) (limitStr : String) : List String :=
  topics.take (effective_limit limitStr).toNat

/-! ### The batch thread `_batch_generation_thread`

The loop state visible to the claims is the `self.results` list.  The
generator call (whose own body never raises: any exception inside the
`try` block is converted to a failure record) is abstracted as a total
function `gen`; the timestamp taken at step `i` as `ts i`; the value of
the shared `self.is_generating` flag observed at the check of iteration
`i` as `alive i`.  The loop checks the flag before each topic and breaks
immediately when it is cleared, so exactly the topics before the stop
point produce a record. -/

def batchRecordsFrom (gen : String → GenResult) (ts : Nat → String)
    (alive : Nat → Bool) : List String → Nat → List ResultRecord
  | [], _ => []
  | t :: rest, i =>
    if alive i then
      { topic := t, result := gen t, timestamp := ts i } ::
        batchRecordsFrom gen ts alive rest (i + 1)
    else []

def batchRecords (gen : String → GenResult) (ts : Nat → String)
    (alive : Nat → Bool) (topics : List String) : List ResultRecord :=
  batchRecordsFrom gen ts alive topics 0

/-- Number of loop iterations executed before the flag check fails
(`topics.length` if it never fails). -/
def stopIndexFrom (alive : Nat → Bool) : Nat → Nat → Nat
  | _, 0 => 0
  | i, n + 1 => if alive i then stopIndexFrom alive (i + 1) n + 1 else 0

def stopIndex (alive : Nat → Bool) (n : Nat) : Nat :=
  stopIndexFrom alive 0 n

/-! ### `_generation_complete`: aggregate statistics -/

/-- Count `sum(1 for r in self.results if r['result']['success'])`. -/
def success_count (rs : List ResultRecord) : Nat :=
  rs.countP (fun r => r.result.isSuccess)

/-- Difference `len(self.results) - success_count`. -/
def fail_count (rs : List ResultRecord) : Nat :=
  rs.length - success_count rs

/-- Sum `sum(r['result'].get('char_count', 0) for r in self.results if r['result']['success'])`. -/
def total_chars (rs : List ResultRecord) : Nat :=
  ((rs.filter (fun r => r.result.isSuccess)).map (fun r => r.result.charCount)).sum

/-- The statistics carried by the Completed notification. -/
def complete_stats (rs : List ResultRecord) : Nat × Nat × Nat :=
  (success_count rs, fail_count rs, total_chars rs)

/-! ### `_export_csv` -/

/-- The CSV header row. -/
def csv_header : List String :=
  ["주제", "상태", "글자수", "단어수", "모델", "생성시간", "콘텐츠", "오류메시지"]

/-- The row written for one `ResultRecord` (numbers serialised as by
`csv.writer`: `str` of the Python int). -/
def csv_row (item : ResultRecord) : List String :=
  match item.result with
  | .success content cc wc _ _ model =>
    [item.topic, "성공", toString cc, toString wc, model, item.timestamp,
      content, ""]
  | .failure err =>
    [item.topic, "실패", "0", "0", "", item.timestamp, "", err]

/-- All rows written by `_export_csv`, in order. -/
def export_csv_rows (rs : List ResultRecord) : List (List String) :=
  csv_header :: rs.map csv_row

/-! ### `bulk_download_to_html`

`html.escape` (with quoting) replaces `&`, `<`, `>`, `"` and the
apostrophe by entities; the sequential `str.replace` passes of the
library implementation are equivalent to the character-wise map below
because the only `&` characters produced by later passes are inside
already-final entities.  The digest's dynamic content (table of contents
and post blocks, the parts built from record data) is modelled; the
constant CSS/head prologue and the footer are fixed text independent of
the records and are not repeated here. -/

def escapeHtmlChar (c : Char) : List Char :=
  if c = '&' then ['&', 'a', 'm', 'p', ';']
  else if c = '<' then ['&', 'l', 't', ';']
  else if c = '>' then ['&', 'g', 't', ';']
  else if c = '\"' then ['&', 'q', 'u', 'o', 't', ';']
  else if c = apostrophe then ['&', '#', 'x', '2', '7', ';']
  else [c]

def escape_html (s : String) : String :=
  String.mk ((s.data.map escapeHtmlChar).flatten)

/-- Formatting `f'{i:03d}'`: decimal, left-padded with zeros to width 3. -/
def pad3 (i : Nat) : String :=
  let s := toString i
  if s.length < 3 then String.mk (List.replicate (3 - s.length) '0') ++ s else s

/-- Formatting `f'{n:,}'`: decimal with comma grouping; digits are processed from the
least significant end, a comma after every third digit with more to come. -/
def commaGroupRev : List Char → List Char
  | a :: b :: c :: d :: rest => a :: b :: c :: ',' :: commaGroupRev (d :: rest)
  | l => l

def commaFormat (n : Nat) : String :=
  String.mk (commaGroupRev (toString n).data.reverse).reverse

/-- One table-of-contents line:
`f'                <li><a href="#post-{i}">[{i:03d}] {topic}</a></li>\n'`.
The topic is interpolated raw. -/
def toc_entry (i : Nat) (topic : String) : String :=
  "                <li><a href=\"#post-" ++ toString i ++ "\">[" ++ pad3 i ++
    "] " ++ topic ++ "</a></li>\n"

/-- One post block (the f-string written per successful result); topic and
content pass through `escape_html`, the number through `{i:03d}`, the
character count through `{...:,}`. -/
def post_block (i : Nat) (item : ResultRecord) : String :=
  let model := match item.result with
    | .success _ _ _ _ _ m => m
    | .failure _ => "N/A"
  "\n        <div class=\"post\" id=\"post-" ++ toString i ++ "\">\n" ++
    "            <div class=\"post-header\">\n" ++
    "                <div class=\"post-number\">" ++ pad3 i ++ "</div>\n" ++
    "                <div class=\"post-title\">" ++ escape_html item.topic ++
    "</div>\n" ++
    "                <div class=\"post-meta\">\n" ++
    "                    <span>📅 작성일: " ++ item.timestamp ++ "</span>\n" ++
    "                    <span>📊 글자수: " ++ commaFormat item.result.charCount ++
    "자</span>\n" ++
    "                    <span>🤖 AI 모델: " ++ model ++ "</span>\n" ++
    "                </div>\n" ++
    "            </div>\n" ++
    "            <div class=\"post-content\">" ++
    escape_html (String.mk (pyStrip ((match item.result with
      | .success c _ _ _ _ _ => c
      | .failure _ => "").data))) ++ "</div>\n" ++
    "        </div>"

/-- The static text between the table of contents and the post blocks. -/
def toc_close : String :=
  "            </ul>\n        </div>\n        \n        <!-- 본문 -->"

/-- The dynamic body of the bulk HTML digest: only successful records,
enumerated from 1; a table of contents of `toc_entry` lines, then the
`post_block` sequence. -/
def bulk_html_body (rs : List ResultRecord) : String :=
  let succ := rs.filter (fun r => r.result.isSuccess)
  String.join ((succ.enumFrom 1).map (fun p => toc_entry p.1 p.2.topic)) ++
    toc_close ++
    String.join ((succ.enumFrom 1).map (fun p => post_block p.1 p.2))

/-! ### Auxiliary definitions used by the statements -/

/-- The characters that can start or complete any of the eleven
`remove_markdown` patterns. -/
def markerChars : List Char :=
  ['#', '*', '_', '-', '+', '[', '>', '.', backquote]

/-- A string none of whose characters occur in any markdown pattern. -/
def markerFree (s : String) : Bool :=
  s.data.all (fun c => !(markerChars.contains c))

/-- A concrete successful record whose topic contains raw HTML markup,
used to exhibit the unescaped table-of-contents interpolation. -/
def demoHtmlRecord : ResultRecord :=
  { topic := "<b>x"
    result := .success "body" 4 1 "<b>x" "" "gpt-4o"
    timestamp := "ts" }

/-- The generator stub of the spec's worked example: a 2500-character
success for topic `"A"`, a network failure for everything else. -/
def specExampleGen : String → GenResult := fun t =>
  if t = "A" then
    .success (String.mk (List.replicate 2500 'x')) 2500 1 "A" "" "gpt-4o"
  else .failure "network error"

/-- The records produced by a full (uncancelled) run of the batch loop on
the spec's worked example. -/
def specExampleRecords : List ResultRecord :=
  batchRecords specExampleGen (fun _ => "ts") (fun _ => true) ["A", "B"]

example : remove_markdown_str "# # a" = "# a" := by decide
example : remove_markdown_str "# a" = "a" := by decide
example : remove_markdown_str "**bold** and *it*" = "bold and it" := by decide
example : remove_markdown_str "- item" = "item" := by decide
example : remove_markdown_str "1. item" = "item" := by decide
example : remove_markdown_str "[text](url)" = "text" := by decide
example : remove_markdown_str "> quote" = "quote" := by decide
example : remove_markdown_str "a ```code``` b" = "a  b" := by decide
example : remove_markdown_str "a `x` b" = "a x b" := by decide
example : remove_markdown_str "  hi  " = "hi" := by decide
example : remove_markdown_str "***a**" = "*a" := by decide

/-! ## Helper lemmas -/

lemma batchRecordsFrom_true_map_topic (gen : String → GenResult) (ts : Nat → String) :
    ∀ (topics : List String) (i : Nat),
      (batchRecordsFrom gen ts (fun _ => true) topics i).map (fun r => r.topic) =
        topics := by
  intro topics
  induction topics with
  | nil => intro i; rfl
  | cons t rest ih => intro i; simp [batchRecordsFrom, ih]

lemma batchRecordsFrom_take (gen : String → GenResult) (ts : Nat → String)
    (alive : Nat → Bool) :
    ∀ (topics : List String) (i : Nat),
      batchRecordsFrom gen ts alive topics i =
        (batchRecordsFrom gen ts (fun _ => true) topics i).take
          (stopIndexFrom alive i topics.length) := by
  intro topics
  induction topics with
  | nil => intro i; rfl
  | cons t rest ih =>
    intro i
    simp only [batchRecordsFrom, stopIndexFrom, List.length_cons]
    by_cases h : alive i = true
    · simp [h, ih]
    · simp [h]

lemma stopIndexFrom_le (alive : Nat → Bool) :
    ∀ (n i : Nat), stopIndexFrom alive i n ≤ n := by
  intro n
  induction n with
  | zero => intro i; simp [stopIndexFrom]
  | succ k ih =>
    intro i
    simp only [stopIndexFrom]
    by_cases h : alive i = true
    · simp [h]; exact ih (i + 1)
    · simp [h]

/-! ## Claim theorems -/

/-- Claim C1: running the batch loop with the cancellation flag always
observed true appends exactly one `ResultRecord` per topic, in input
order, the i-th record's topic being the i-th topic; with an arbitrary
flag history the recorded list is exactly the prefix of that full list
up to the first failed flag check, so its topics are a prefix of the
topic list — no topic recorded twice, none skipped before the stop
point, count at most the stop index. -/
theorem batch_loop_prefix_records (gen : String → GenResult) (ts : Nat → String)
    (alive : Nat → Bool) (topics : List String) :
    (batchRecords gen ts (fun _ => true) topics).map (fun r => r.topic) = topics ∧
    batchRecords gen ts alive topics =
      (batchRecords gen ts (fun _ => true) topics).take
        (stopIndex alive topics.length) ∧
    stopIndex alive topics.length ≤ topics.length ∧
    (batchRecords gen ts alive topics).map (fun r => r.topic) =
      topics.take (stopIndex alive topics.length) := by
  refine ⟨batchRecordsFrom_true_map_topic gen ts topics 0,
    batchRecordsFrom_take gen ts alive topics 0,
    stopIndexFrom_le alive topics.length 0, ?_⟩
  unfold batchRecords stopIndex
  rw [batchRecordsFrom_take gen ts alive topics 0]
  rw [List.map_take, batchRecordsFrom_true_map_topic gen ts topics 0]

/-- Claim C2: for every failing outcome of the model-listing GET (non-200
status or a raised exception), `get_available_models` returns the fixed
4-item fallback list, which is non-empty; the embedded function is total,
so no exception escapes. -/
theorem get_available_models_fallback (r : ModelsResponse)
    (h : r.isFailure = true) :
    get_available_models r = fallback_models ∧ fallback_models.length = 4 ∧
      fallback_models ≠ [] := by
  refine ⟨?_, rfl, by decide⟩
  cases r with
  | response s ids =>
    have hs : ¬s = 200 := by simpa [ModelsResponse.isFailure] using h
    simp [get_available_models, hs]
  | exn m => rfl

theorem get_available_models_fallback_witness :
    get_available_models (.response 500 []) = fallback_models ∧
      fallback_models.length = 4 ∧ fallback_models ≠ [] :=
  get_available_models_fallback (.response 500 []) (by decide)

/-- Claim C3 (counterexample): `remove_markdown` is not idempotent — on
`"# # a"` the heading pass removes only the first `"# "` (the scan does
not revisit the newly exposed line start), so a second application strips
the remaining `"# "`. -/
theorem remove_markdown_not_idempotent :
    remove_markdown_str (remove_markdown_str "# # a") ≠
      remove_markdown_str "# # a" := by decide

/-- Claim C5 (counterexample): the CSV row for a failed record carries
`"0"` (the serialised integer `0`), not an empty field, in the char_count
and word_count columns. -/
theorem csv_failed_row_zero_counts :
    csv_row { topic := "t", result := .failure "boom", timestamp := "ts" } =
      ["t", "실패", "0", "0", "", "ts", "", "boom"] ∧
    (csv_row { topic := "t", result := .failure "boom", timestamp := "ts" })[2]? ≠
      some "" ∧
    (csv_row { topic := "t", result := .failure "boom", timestamp := "ts" })[3]? ≠
      some "" := by decide

/-- Claim C5 (amended): CSV export writes the header and then exactly one
row per `ResultRecord`, in record order; a failed record's row has `0` in
the char_count and word_count columns, empty model and content columns,
and the record's error text in the error_message column. -/
theorem csv_rows_amended (rs : List ResultRecord) (topic ts e : String) :
    (export_csv_rows rs).length = rs.length + 1 ∧
    (∀ i : Nat, (export_csv_rows rs)[i + 1]? = (rs[i]?).map csv_row) ∧
    csv_row { topic := topic, result := .failure e, timestamp := ts } =
      [topic, "실패", "0", "0", "", ts, "", e] := by
  refine ⟨by simp [export_csv_rows], ?_, rfl⟩
  intro i
  simp [export_csv_rows]

/-- Claim C6: every Success result produced by `generate_content` reports
a character count equal to the length of the cleaned (markdown-stripped,
trimmed) text it carries, and a word count equal to the number of
whitespace-delimited tokens of that same cleaned text. -/
theorem generate_content_counts (topic keywords model : String)
    (out : CompletionOutcome) (content : String) (cc wc : Nat)
    (t k m : String)
    (h : generate_content topic keywords model out =
      .success content cc wc t k m) :
    cc = content.length ∧ wc = pyWordCount content ∧
      ∃ raw, out = .ok raw ∧ content = remove_markdown_str raw := by
  cases out with
  | ok raw =>
    simp only [generate_content] at h
    injection h with h1 h2 h3 h4 h5 h6
    subst h1; subst h2; subst h3
    exact ⟨rfl, rfl, raw, rfl, rfl⟩
  | httpErr status body => simp [generate_content] at h
  | timeout => simp [generate_content] at h
  | connError => simp [generate_content] at h
  | exn msg => simp [generate_content] at h

theorem generate_content_counts_witness :
    3 = ("a b" : String).length ∧ 2 = pyWordCount "a b" ∧
      ∃ raw, CompletionOutcome.ok "a b" = .ok raw ∧
        ("a b" : String) = remove_markdown_str raw :=
  generate_content_counts "t" "" "m" (.ok "a b") "a b" 3 2 "t" "" "m" (by decide)

/-- Claim C7: starting a batch truncates the topic list to the effective
limit; any limit string that parses to a non-positive integer, or does not
parse at all, silently yields the effective limit 100 — in particular the
string `"0"` does. -/
theorem start_batch_limit (topics : List String) (s : String) :
    start_topics topics s = topics.take (effective_limit s).toNat ∧
    (start_topics topics s).length ≤ (effective_limit s).toNat ∧
    ((pyParseInt s = none ∨ ∃ v, pyParseInt s = some v ∧ v ≤ 0) →
      effective_limit s = 100) ∧
    effective_limit "0" = 100 := by
  refine ⟨rfl, ?_, ?_, by decide⟩
  · exact (List.length_take _ _).trans_le (min_le_left _ _)
  · intro h
    unfold effective_limit
    rcases h with h | ⟨v, hv, hle⟩
    · simp [h]
    · simp [hv, hle]

theorem start_batch_limit_witness : effective_limit "0" = 100 :=
  (start_batch_limit [] "0").2.2.1 (Or.inr ⟨0, by decide, by decide⟩)

/-- Claim C8: the Completed statistics report the number of records whose
result is a success, the failure count as total minus successes, and the
total characters as the sum of successful records' char_count; on the
spec's example (topics `["A", "B"]`, a 2500-character success for `"A"`
and a network failure for `"B"`) the loop yields success=1, fail=1,
total_chars=2500 and the records `[Success(A), Failure(B)]` in order. -/
theorem generation_complete_stats :
    (∀ rs : List ResultRecord,
      success_count rs = (rs.filter (fun r => r.result.isSuccess)).length) ∧
    complete_stats specExampleRecords = (1, 1, 2500) ∧
    specExampleRecords.map (fun r => r.topic) = ["A", "B"] ∧
    specExampleRecords.map (fun r => r.result.isSuccess) = [true, false] ∧
    (specExampleRecords[1]?).map (fun r => r.result) =
      some (.failure "network error") := by
  exact ⟨fun rs => List.countP_eq_length_filter _ _, rfl, rfl, rfl, rfl⟩

/-! ## Lexicographic order facts (for the model-list reordering) -/

lemma lexLt_trans : ∀ {a b c : List Char},
    lexLt a b = true → lexLt b c = true → lexLt a c = true := by
  intro a
  induction a with
  | nil =>
    intro b c hab hbc
    cases b with
    | nil => simp [lexLt] at hab
    | cons y ys =>
      cases c with
      | nil => simp [lexLt] at hbc
      | cons z zs => simp [lexLt]
  | cons x xs ih =>
    intro b c hab hbc
    cases b with
    | nil => simp [lexLt] at hab
    | cons y ys =>
      cases c with
      | nil => simp [lexLt] at hbc
      | cons z zs =>
        simp only [lexLt] at hab hbc ⊢
        by_cases hxy : x < y
        · by_cases hyz : y < z
          · simp [lt_trans hxy hyz]
          · by_cases hzy : z < y
            · simp [hyz, hzy] at hbc
            · have hy : y = z := le_antisymm (not_lt.mp hzy) (not_lt.mp hyz)
              subst hy
              simp [hxy]
        · by_cases hyx : y < x
          · simp [hxy, hyx] at hab
          · have hx : x = y := le_antisymm (not_lt.mp hyx) (not_lt.mp hxy)
            subst hx
            simp only [lt_irrefl, if_false] at hab
            by_cases hyz : x < z
            · simp [hyz]
            · by_cases hzy : z < x
              · simp [hyz, hzy] at hbc
              · have hy : x = z := le_antisymm (not_lt.mp hzy) (not_lt.mp hyz)
                subst hy
                simp only [lt_irrefl, if_false] at hbc ⊢
                exact ih hab hbc

lemma lexLt_asymm : ∀ {a b : List Char},
    lexLt a b = true → lexLt b a = false := by
  intro a
  induction a with
  | nil =>
    intro b hab
    cases b with
    | nil => simp [lexLt] at hab
    | cons y ys => simp [lexLt]
  | cons x xs ih =>
    intro b hab
    cases b with
    | nil => simp [lexLt] at hab
    | cons y ys =>
      simp only [lexLt] at hab ⊢
      by_cases hxy : x < y
      · simp [hxy, lt_asymm hxy]
      · by_cases hyx : y < x
        · simp [hxy, hyx] at hab
        · simp only [hxy, if_false, hyx, if_neg hyx] at hab ⊢
          simp [ih hab]

lemma strLt_trans {a b c : String} (h1 : strLt a b = true)
    (h2 : strLt b c = true) : strLt a c = true :=
  lexLt_trans h1 h2

lemma strLt_asymm {a b : String} (h : strLt a b = true) : strLt b a = false :=
  lexLt_asymm h

lemma mem_insertSorted {x y : String} : ∀ {l : List String},
    y ∈ insertSorted x l ↔ y = x ∨ y ∈ l := by
  intro l
  induction l with
  | nil => simp [insertSorted]
  | cons z zs ih =>
    simp only [insertSorted]
    by_cases h : strLt x z = true
    · simp only [if_pos h, List.mem_cons]
    · simp only [if_neg h, List.mem_cons, ih]
      tauto

lemma mem_pySorted {y : String} : ∀ {l : List String},
    y ∈ pySorted l ↔ y ∈ l := by
  intro l
  induction l with
  | nil => simp [pySorted]
  | cons x xs ih =>
    simp only [pySorted, mem_insertSorted, ih, List.mem_cons]

lemma insertSorted_pairwise {x : String} : ∀ {l : List String},
    l.Pairwise (fun a b => strLt b a = false) →
    (insertSorted x l).Pairwise (fun a b => strLt b a = false) := by
  intro l
  induction l with
  | nil => intro _; simp [insertSorted]
  | cons y ys ih =>
    intro h
    rw [List.pairwise_cons] at h
    obtain ⟨hy, hys⟩ := h
    simp only [insertSorted]
    by_cases hxy : strLt x y = true
    · rw [if_pos hxy]
      refine List.Pairwise.cons ?_ (List.Pairwise.cons hy hys)
      intro z hz
      rcases List.mem_cons.mp hz with rfl | hz2
      · exact strLt_asymm hxy
      · by_contra hzx
        have hzx2 : strLt z x = true := by
          cases hb : strLt z x with
          | false => exact absurd hb hzx
          | true => rfl
        have : strLt z y = true := strLt_trans hzx2 hxy
        rw [hy z hz2] at this
        exact Bool.false_ne_true this
    · rw [if_neg hxy]
      refine List.Pairwise.cons ?_ (ih hys)
      intro z hz
      rcases mem_insertSorted.mp hz with rfl | hz2
      · exact eq_false_of_ne_true hxy
      · exact hy z hz2

lemma pySorted_pairwise (l : List String) :
    (pySorted l).Pairwise (fun a b => strLt b a = false) := by
  induction l with
  | nil => simp [pySorted]
  | cons x xs ih => exact insertSorted_pairwise ih

lemma partitionPriority_eq (l : List String) :
    partitionPriority l =
      (l.filter isPriorityModel, l.filter (fun m => !isPriorityModel m)) := by
  induction l with
  | nil => rfl
  | cons m ms ih =>
    simp only [partitionPriority, ih]
    by_cases h : isPriorityModel m = true
    · simp [h, List.filter_cons]
    · simp [h, List.filter_cons, eq_false_of_ne_true h]

/-- Claim C9 (counterexample): on a successful response containing both
`gpt-4o` and `gpt-3.5-turbo`, the code returns them in lexical order
(`gpt-3.5-turbo` first), not in the priority list's order (`gpt-4o`
first) as the claim states. -/
theorem models_priority_order_counterexample :
    get_available_models (.response 200 ["gpt-4o", "gpt-3.5-turbo"]) =
      ["gpt-3.5-turbo", "gpt-4o"] ∧
    get_available_models (.response 200 ["gpt-4o", "gpt-3.5-turbo"]) ≠
      ["gpt-4o", "gpt-3.5-turbo"] := by decide

/-- Claim C9 (amended): on a successful model-listing response the result
contains exactly the ids containing `gpt-4`, `gpt-3.5` or `gpt-4o`; the
matches are sorted lexically and then stably partitioned, the members of
the fixed priority set coming first in lexical order (not in the priority
list's order) and the remaining matches following, also in lexical
order. -/
theorem models_reorder_amended (ids : List String) :
    get_available_models (.response 200 ids) =
      (pySorted (ids.filter hasChatKeyword)).filter isPriorityModel ++
        (pySorted (ids.filter hasChatKeyword)).filter
          (fun m => !isPriorityModel m) ∧
    (∀ m, m ∈ get_available_models (.response 200 ids) ↔
      m ∈ ids.filter hasChatKeyword) ∧
    ((pySorted (ids.filter hasChatKeyword)).filter isPriorityModel).Pairwise
      (fun a b => strLt b a = false) ∧
    ((pySorted (ids.filter hasChatKeyword)).filter
      (fun m => !isPriorityModel m)).Pairwise
        (fun a b => strLt b a = false) := by
  have hpart := partitionPriority_eq (pySorted (ids.filter hasChatKeyword))
  have hsorted := pySorted_pairwise (ids.filter hasChatKeyword)
  refine ⟨by simp [get_available_models, hpart], ?_,
    List.Pairwise.sublist (List.filter_sublist _) hsorted,
    List.Pairwise.sublist (List.filter_sublist _) hsorted⟩
  intro m
  simp only [get_available_models, if_pos rfl, hpart, List.mem_append,
    List.mem_filter, mem_pySorted]
  by_cases h : isPriorityModel m = true <;>
    simp [h, mem_pySorted, List.mem_filter]

/-! ## HTML escaping facts -/

lemma escapeHtmlChar_no_raw (a c : Char) (h : c ∈ escapeHtmlChar a) :
    (c = '<' || c = '>' || c = '\"' || c = apostrophe) = false := by
  unfold escapeHtmlChar at h
  split_ifs at h with h1 h2 h3 h4 h5
  · fin_cases h <;> decide
  · fin_cases h <;> decide
  · fin_cases h <;> decide
  · fin_cases h <;> decide
  · fin_cases h <;> decide
  · simp only [List.mem_singleton] at h
    subst h
    simp only [Bool.or_eq_false_iff, decide_eq_false_iff_not]
    exact ⟨⟨⟨h2, h3⟩, h4⟩, h5⟩

lemma escape_html_no_raw (s : String) :
    (escape_html s).data.all
      (fun c => !(c = '<' || c = '>' || c = '\"' || c = apostrophe)) = true := by
  show ((s.data.map escapeHtmlChar).flatten).all _ = true
  rw [List.all_eq_true]
  intro c hc
  rw [List.mem_flatten] at hc
  obtain ⟨chunk, hchunk, hcmem⟩ := hc
  rw [List.mem_map] at hchunk
  obtain ⟨a, _, rfl⟩ := hchunk
  simp [escapeHtmlChar_no_raw a c hcmem]

lemma pad3_length (i : Nat) : (pad3 i).length = max 3 (toString i).length := by
  unfold pad3
  by_cases h : (toString i).length < 3
  · rw [if_pos h]
    have h2 : (String.mk (List.replicate (3 - (toString i).length) '0') ++
        toString i).length =
        (3 - (toString i).length) + (toString i).length := by
      rw [String.length_append]
      show (List.replicate (3 - (toString i).length) '0').length + _ = _
      rw [List.length_replicate]
    rw [h2]
    omega
  · rw [if_neg h]
    omega

set_option maxRecDepth 100000 in
/-- Claim C4 (counterexample): on a successful record whose topic is
`"<b>x"`, the digest contains the raw topic inside the table-of-contents
anchor (and not its escaped form there), although the post title div does
carry the escaped form — the TOC anchor text is not HTML-escaped. -/
theorem bulk_html_toc_unescaped :
    isSubstringOf "[001] <b>x</a>".data
      (bulk_html_body [demoHtmlRecord]).data = true ∧
    isSubstringOf ">&lt;b&gt;x</div>".data
      (bulk_html_body [demoHtmlRecord]).data = true ∧
    isSubstringOf "[001] &lt;b&gt;x".data
      (bulk_html_body [demoHtmlRecord]).data = false := by decide

/-- Claim C4 (amended): the bulk HTML digest is built from the successful
results only; every post title and post body is HTML-escaped, and escaped
text contains no raw `<`, `>`, `"` or apostrophe characters; sequence
numbers are zero-padded to at least three digits; but the topic text in
the table-of-contents anchor links is interpolated unescaped. -/
theorem bulk_html_digest_amended :
    (∀ rs : List ResultRecord,
      bulk_html_body rs =
        bulk_html_body (rs.filter (fun r => r.result.isSuccess))) ∧
    (∀ s : String, (escape_html s).data.all
      (fun c => !(c = '<' || c = '>' || c = '\"' || c = apostrophe)) = true) ∧
    (∀ i : Nat, (pad3 i).length = max 3 (toString i).length) := by
  refine ⟨?_, escape_html_no_raw, pad3_length⟩
  intro rs
  unfold bulk_html_body
  rw [List.filter_filter]
  simp [Bool.and_self]

/-! ## Length bounds: every pass is non-lengthening -/

lemma length_dropWhile_le' (p : Char → Bool) (l : List Char) :
    (l.dropWhile p).length ≤ l.length :=
  (List.dropWhile_sublist p).length_le

lemma subScanF_length_le (m : List Char → Option (List Char × List Char))
    (hm : ∀ l rep rest, m l = some (rep, rest) →
      rep.length + rest.length ≤ l.length) :
    ∀ (fuel : Nat) (l : List Char), (subScanF m fuel l).length ≤ l.length := by
  intro fuel
  induction fuel with
  | zero => intro l; exact le_rfl
  | succ n ih =>
    intro l
    cases l with
    | nil => simp [subScanF]
    | cons c cs =>
      simp only [subScanF]
      cases hmc : m (c :: cs) with
      | none =>
        simp only [List.length_cons]
        exact Nat.succ_le_succ (ih cs)
      | some pr =>
        obtain ⟨rep, rest⟩ := pr
        have h1 := hm _ _ _ hmc
        have h2 := ih rest
        simp only [List.length_append, List.length_cons] at h1 ⊢
        omega

lemma stripAnchoredF_length_le (m : List Char → Option (Bool × List Char))
    (hm : ∀ l nl rest, m l = some (nl, rest) → rest.length ≤ l.length) :
    ∀ (fuel : Nat) (b : Bool) (l : List Char),
      (stripAnchoredF m fuel b l).length ≤ l.length := by
  intro fuel
  induction fuel with
  | zero => intro b l; exact le_rfl
  | succ n ih =>
    intro b l
    cases l with
    | nil => simp [stripAnchoredF]
    | cons c cs =>
      simp only [stripAnchoredF]
      by_cases hb : b = true
      · rw [if_pos hb]
        cases hmc : m (c :: cs) with
        | none =>
          simp only [List.length_cons]
          exact Nat.succ_le_succ (ih _ cs)
        | some pr =>
          obtain ⟨nl, rest⟩ := pr
          exact le_trans (ih nl rest) (hm _ _ _ hmc)
      · rw [if_neg hb]
        simp only [List.length_cons]
        exact Nat.succ_le_succ (ih _ cs)

lemma headingMatch_rest_le {l : List Char} {nl : Bool} {rest : List Char}
    (h : headingMatch l = some (nl, rest)) : rest.length ≤ l.length := by
  simp only [headingMatch] at h
  split_ifs at h with h1 h2
  · simp only [Option.some.injEq, Prod.mk.injEq] at h
    obtain ⟨-, hrest⟩ := h
    subst hrest
    exact le_trans (length_dropWhile_le' _ _) (length_dropWhile_le' _ _)

lemma emphClose_length {d : List Char} : ∀ {l inner rest : List Char},
    emphClose d l = some (inner, rest) →
    inner.length + d.length + rest.length = l.length := by
  intro l
  induction l with
  | nil => intro inner rest h; simp [emphClose] at h
  | cons c cs ih =>
    intro inner rest h
    simp only [emphClose] at h
    split_ifs at h with h1 h2
    · simp only [Option.some.injEq, Prod.mk.injEq] at h
      obtain ⟨hinner, hrest⟩ := h
      subst hinner; subst hrest
      have hd : d.length ≤ cs.length :=
        (List.isPrefixOf_iff_prefix.mp h2).length_le
      simp only [List.length_cons, List.length_singleton, List.length_drop,
        List.length_nil]
      omega
    · cases hmc : emphClose d cs with
      | none => rw [hmc] at h; exact absurd h (by simp)
      | some pr =>
        obtain ⟨i0, r0⟩ := pr
        rw [hmc] at h
        simp only [Option.some.injEq, Prod.mk.injEq] at h
        obtain ⟨hinner, hrest⟩ := h
        subst hinner; subst hrest
        have := ih hmc
        simp only [List.length_cons]
        omega

lemma emphMatch_bound {d l rep rest : List Char}
    (h : emphMatch d l = some (rep, rest)) :
    rep.length + rest.length ≤ l.length := by
  unfold emphMatch at h
  split_ifs at h with hp
  · have hd : d.length ≤ l.length := (List.isPrefixOf_iff_prefix.mp hp).length_le
    have h2 := emphClose_length h
    rw [List.length_drop] at h2
    omega

lemma linkMatch_bound : ∀ {l rep rest : List Char},
    linkMatch l = some (rep, rest) → rep.length + rest.length ≤ l.length := by
  intro l rep rest h
  unfold linkMatch at h
  split at h
  next r1 =>
    simp only [] at h
    by_cases h1 : 1 ≤ (r1.takeWhile (fun c => c ≠ ']')).length
    case neg => rw [if_neg h1] at h; exact absurd h (by simp)
    rw [if_pos h1] at h
    split at h
    next r2 heq =>
      by_cases h2 : 1 ≤ (r2.takeWhile (fun c => c ≠ ')')).length
      case neg => rw [if_neg h2] at h; exact absurd h (by simp)
      rw [if_pos h2] at h
      split at h
      next rest0 heq2 =>
        simp only [Option.some.injEq, Prod.mk.injEq] at h
        obtain ⟨hrep, hrest⟩ := h
        subst hrep; subst hrest
        have e1 := congrArg List.length
          (List.takeWhile_append_dropWhile (fun c => c ≠ ']') r1)
        rw [heq] at e1
        have e2 := congrArg List.length
          (List.takeWhile_append_dropWhile (fun c => c ≠ ')') r2)
        rw [heq2] at e2
        simp only [List.length_append, List.length_cons] at e1 e2 ⊢
        omega
      next => exact absurd h (by simp)
    next => exact absurd h (by simp)
  next => exact absurd h (by simp)

lemma codeBlockMatch_bound {l rep rest : List Char}
    (h : codeBlockMatch l = some (rep, rest)) :
    rep.length + rest.length ≤ l.length := by
  simp only [codeBlockMatch] at h
  split_ifs at h with h1 h2
  · simp only [Option.some.injEq, Prod.mk.injEq] at h
    obtain ⟨hrep, hrest⟩ := h
    subst hrep; subst hrest
    have a1 := length_dropWhile_le' (fun c => c ≠ backquote) (l.drop 3)
    rw [List.length_drop] at a1
    simp only [List.length_nil, List.length_drop]
    omega

lemma inlineCodeMatch_bound : ∀ {l rep rest : List Char},
    inlineCodeMatch l = some (rep, rest) → rep.length + rest.length ≤ l.length := by
  intro l rep rest h
  unfold inlineCodeMatch at h
  split at h
  next c r1 =>
    by_cases hc : c = backquote
    case neg => rw [if_neg hc] at h; exact absurd h (by simp)
    rw [if_pos hc] at h
    simp only [] at h
    by_cases h1 : 1 ≤ (r1.takeWhile (fun d => d ≠ backquote)).length
    case neg => rw [if_neg h1] at h; exact absurd h (by simp)
    rw [if_pos h1] at h
    split at h
    next d rest0 heq =>
      by_cases hd : d = backquote
      case neg => rw [if_neg hd] at h; exact absurd h (by simp)
      rw [if_pos hd] at h
      simp only [Option.some.injEq, Prod.mk.injEq] at h
      obtain ⟨hrep, hrest⟩ := h
      subst hrep; subst hrest
      have e1 := congrArg List.length
        (List.takeWhile_append_dropWhile (fun d => d ≠ backquote) r1)
      rw [heq] at e1
      simp only [List.length_append, List.length_cons] at e1 ⊢
      omega
    next => exact absurd h (by simp)
  next => exact absurd h (by simp)

lemma listMarkerMatch_rest_le {l : List Char} {nl : Bool} {rest : List Char}
    (h : listMarkerMatch l = some (nl, rest)) : rest.length ≤ l.length := by
  unfold listMarkerMatch at h
  split at h
  next m r2 heq =>
    by_cases hm : m = '-' ∨ m = '*' ∨ m = '+'
    case neg => rw [if_neg hm] at h; exact absurd h (by simp)
    rw [if_pos hm] at h
    simp only [] at h
    by_cases h1 : 1 ≤ (r2.takeWhile isPySpace).length
    case neg => rw [if_neg h1] at h; exact absurd h (by simp)
    rw [if_pos h1] at h
    simp only [Option.some.injEq, Prod.mk.injEq] at h
    obtain ⟨-, hrest⟩ := h
    subst hrest
    have a1 := length_dropWhile_le' isPySpace l
    rw [heq] at a1
    have a2 := length_dropWhile_le' isPySpace r2
    simp only [List.length_cons] at a1
    omega
  next => exact absurd h (by simp)

lemma numMarkerMatch_rest_le {l : List Char} {nl : Bool} {rest : List Char}
    (h : numMarkerMatch l = some (nl, rest)) : rest.length ≤ l.length := by
  simp only [numMarkerMatch] at h
  by_cases h1 : 1 ≤ ((l.dropWhile isPySpace).takeWhile Char.isDigit).length
  case neg => rw [if_neg h1] at h; exact absurd h (by simp)
  rw [if_pos h1] at h
  split at h
  next r2 heq =>
    by_cases h2 : 1 ≤ (r2.takeWhile isPySpace).length
    case neg => rw [if_neg h2] at h; exact absurd h (by simp)
    rw [if_pos h2] at h
    simp only [Option.some.injEq, Prod.mk.injEq] at h
    obtain ⟨-, hrest⟩ := h
    subst hrest
    have a1 := length_dropWhile_le' isPySpace l
    have a2 := length_dropWhile_le' Char.isDigit (l.dropWhile isPySpace)
    rw [heq] at a2
    have a3 := length_dropWhile_le' isPySpace r2
    simp only [List.length_cons] at a2
    omega
  next => exact absurd h (by simp)

lemma quoteMatch_rest_le {l : List Char} {nl : Bool} {rest : List Char}
    (h : quoteMatch l = some (nl, rest)) : rest.length ≤ l.length := by
  unfold quoteMatch at h
  split at h
  next c r1 =>
    by_cases hc : c = '>'
    case neg => rw [if_neg hc] at h; exact absurd h (by simp)
    rw [if_pos hc] at h
    simp only [] at h
    by_cases h1 : 1 ≤ (r1.takeWhile isPySpace).length
    case neg => rw [if_neg h1] at h; exact absurd h (by simp)
    rw [if_pos h1] at h
    simp only [Option.some.injEq, Prod.mk.injEq] at h
    obtain ⟨-, hrest⟩ := h
    subst hrest
    have := length_dropWhile_le' isPySpace r1
    simp only [List.length_cons]
    omega
  next => exact absurd h (by simp)

lemma pyStrip_length_le (l : List Char) : (pyStrip l).length ≤ l.length := by
  unfold pyStrip
  simp only [List.length_reverse]
  exact le_trans (length_dropWhile_le' _ _)
    (by simp only [List.length_reverse]; exact length_dropWhile_le' _ _)

/-- Claim C10: `remove_markdown` never lengthens its input — every
substitution deletes markers or keeps only the inner text of the match,
and the final trim only removes characters. -/
theorem remove_markdown_length_le (s : String) :
    (remove_markdown_str s).length ≤ s.length := by
  show (remove_markdown s.data).length ≤ s.data.length
  unfold remove_markdown applyScan applyAnchored
  refine le_trans (pyStrip_length_le _) ?_
  refine le_trans (subScanF_length_le _
    (fun _ _ _ h => inlineCodeMatch_bound h) _ _) ?_
  refine le_trans (subScanF_length_le _
    (fun _ _ _ h => codeBlockMatch_bound h) _ _) ?_
  refine le_trans (stripAnchoredF_length_le _
    (fun _ _ _ h => quoteMatch_rest_le h) _ _ _) ?_
  refine le_trans (subScanF_length_le _
    (fun _ _ _ h => linkMatch_bound h) _ _) ?_
  refine le_trans (stripAnchoredF_length_le _
    (fun _ _ _ h => numMarkerMatch_rest_le h) _ _ _) ?_
  refine le_trans (stripAnchoredF_length_le _
    (fun _ _ _ h => listMarkerMatch_rest_le h) _ _ _) ?_
  refine le_trans (subScanF_length_le _
    (fun _ _ _ h => emphMatch_bound h) _ _) ?_
  refine le_trans (subScanF_length_le _
    (fun _ _ _ h => emphMatch_bound h) _ _) ?_
  refine le_trans (subScanF_length_le _
    (fun _ _ _ h => emphMatch_bound h) _ _) ?_
  refine le_trans (subScanF_length_le _
    (fun _ _ _ h => emphMatch_bound h) _ _) ?_
  exact stripAnchoredF_length_le _ (fun _ _ _ h => headingMatch_rest_le h) _ _ _

/-! ## Marker-free texts are fixed by every pass -/

lemma markerFree_spec {c : Char} (h : markerChars.contains c = false) :
    c ≠ '#' ∧ c ≠ '*' ∧ c ≠ '_' ∧ c ≠ '-' ∧ c ≠ '+' ∧ c ≠ '[' ∧ c ≠ '>' ∧
      c ≠ '.' ∧ c ≠ backquote := by
  simp only [markerChars] at h
  simp at h
  tauto

lemma headingMatch_none {l : List Char}
    (h : ∀ c ∈ l, markerChars.contains c = false) : headingMatch l = none := by
  cases l with
  | nil => rfl
  | cons c cs =>
    have hc := (markerFree_spec (h c (List.mem_cons_self _ _))).1
    simp [headingMatch, List.takeWhile_cons, hc]

lemma emphMatch_none {c0 : Char} {ds l : List Char}
    (hc0 : c0 = '*' ∨ c0 = '_')
    (h : ∀ c ∈ l, markerChars.contains c = false) :
    emphMatch (c0 :: ds) l = none := by
  cases l with
  | nil => rfl
  | cons b bs =>
    have hb := markerFree_spec (h b (List.mem_cons_self _ _))
    have hne : (c0 == b) = false := by
      rcases hc0 with rfl | rfl
      · exact beq_eq_false_iff_ne.mpr (Ne.symm hb.2.1)
      · exact beq_eq_false_iff_ne.mpr (Ne.symm hb.2.2.1)
    have hp : ((c0 :: ds).isPrefixOf (b :: bs)) = false := by
      simp [List.isPrefixOf, hne]
    simp [emphMatch, hp]

lemma listMarkerMatch_none {l : List Char}
    (h : ∀ c ∈ l, markerChars.contains c = false) :
    listMarkerMatch l = none := by
  unfold listMarkerMatch
  split
  next m r2 heq =>
    have hm : m ∈ l := (List.dropWhile_sublist isPySpace).subset
      (by rw [heq]; exact List.mem_cons_self _ _)
    have hspec := markerFree_spec (h m hm)
    rw [if_neg]
    rintro (rfl | rfl | rfl)
    · exact hspec.2.2.2.1 rfl
    · exact hspec.2.1 rfl
    · exact hspec.2.2.2.2.1 rfl
  next => rfl

lemma numMarkerMatch_none {l : List Char}
    (h : ∀ c ∈ l, markerChars.contains c = false) :
    numMarkerMatch l = none := by
  simp only [numMarkerMatch]
  by_cases h1 : 1 ≤ ((l.dropWhile isPySpace).takeWhile Char.isDigit).length
  · rw [if_pos h1]
    split
    next r2 heq =>
      have hdot : '.' ∈ l := by
        have s1 : '.' ∈ (l.dropWhile isPySpace).dropWhile Char.isDigit := by
          rw [heq]; exact List.mem_cons_self _ _
        exact (List.dropWhile_sublist isPySpace).subset
          ((List.dropWhile_sublist Char.isDigit).subset s1)
      exact absurd rfl (markerFree_spec (h '.' hdot)).2.2.2.2.2.2.2.1
    next => rfl
  · rw [if_neg h1]

lemma linkMatch_none {l : List Char}
    (h : ∀ c ∈ l, markerChars.contains c = false) : linkMatch l = none := by
  unfold linkMatch
  split
  next r1 =>
    exact absurd rfl
      (markerFree_spec (h '[' (List.mem_cons_self _ _))).2.2.2.2.2.1
  next => rfl

lemma quoteMatch_none {l : List Char}
    (h : ∀ c ∈ l, markerChars.contains c = false) : quoteMatch l = none := by
  unfold quoteMatch
  split
  next c r1 =>
    rw [if_neg (markerFree_spec (h c (List.mem_cons_self _ _))).2.2.2.2.2.2.1]
  next => rfl

lemma codeBlockMatch_none {l : List Char}
    (h : ∀ c ∈ l, markerChars.contains c = false) :
    codeBlockMatch l = none := by
  cases l with
  | nil => rfl
  | cons b bs =>
    have hb := (markerFree_spec (h b (List.mem_cons_self _ _))).2.2.2.2.2.2.2.2
    have hne : (backquote == b) = false := beq_eq_false_iff_ne.mpr (Ne.symm hb)
    have hp : (fence.isPrefixOf (b :: bs)) = false := by
      simp [fence, List.isPrefixOf, hne]
    simp [codeBlockMatch, hp]

lemma inlineCodeMatch_none {l : List Char}
    (h : ∀ c ∈ l, markerChars.contains c = false) :
    inlineCodeMatch l = none := by
  unfold inlineCodeMatch
  split
  next c r1 =>
    rw [if_neg (markerFree_spec (h c (List.mem_cons_self _ _))).2.2.2.2.2.2.2.2]
  next => rfl

lemma subScanF_eq_self {m : List Char → Option (List Char × List Char)}
    (hm : ∀ l, (∀ c ∈ l, markerChars.contains c = false) → m l = none) :
    ∀ (fuel : Nat) (l : List Char),
      (∀ c ∈ l, markerChars.contains c = false) → subScanF m fuel l = l := by
  intro fuel
  induction fuel with
  | zero => intro l _; rfl
  | succ n ih =>
    intro l h
    cases l with
    | nil => rfl
    | cons c cs =>
      simp only [subScanF]
      rw [hm (c :: cs) h]
      have := ih cs (fun x hx => h x (List.mem_cons_of_mem _ hx))
      simp [this]

lemma stripAnchoredF_eq_self {m : List Char → Option (Bool × List Char)}
    (hm : ∀ l, (∀ c ∈ l, markerChars.contains c = false) → m l = none) :
    ∀ (fuel : Nat) (b : Bool) (l : List Char),
      (∀ c ∈ l, markerChars.contains c = false) →
        stripAnchoredF m fuel b l = l := by
  intro fuel
  induction fuel with
  | zero => intro b l _; rfl
  | succ n ih =>
    intro b l h
    cases l with
    | nil => rfl
    | cons c cs =>
      have htail := ih (c = '\n') cs (fun x hx => h x (List.mem_cons_of_mem _ hx))
      simp only [stripAnchoredF]
      by_cases hb : b = true
      · rw [if_pos hb, hm (c :: cs) h]
        simp [htail]
      · rw [if_neg hb]
        simp [htail]

lemma remove_markdown_eq_pyStrip {l : List Char}
    (h : ∀ c ∈ l, markerChars.contains c = false) :
    remove_markdown l = pyStrip l := by
  unfold remove_markdown applyScan applyAnchored
  simp only []
  rw [stripAnchoredF_eq_self (fun _ hh => headingMatch_none hh) _ _ _ h]
  rw [subScanF_eq_self (fun _ hh => emphMatch_none (Or.inl rfl) hh) _ _ h]
  rw [subScanF_eq_self (fun _ hh => emphMatch_none (Or.inl rfl) hh) _ _ h]
  rw [subScanF_eq_self (fun _ hh => emphMatch_none (Or.inr rfl) hh) _ _ h]
  rw [subScanF_eq_self (fun _ hh => emphMatch_none (Or.inr rfl) hh) _ _ h]
  rw [stripAnchoredF_eq_self (fun _ hh => listMarkerMatch_none hh) _ _ _ h]
  rw [stripAnchoredF_eq_self (fun _ hh => numMarkerMatch_none hh) _ _ _ h]
  rw [subScanF_eq_self (fun _ hh => linkMatch_none hh) _ _ h]
  rw [stripAnchoredF_eq_self (fun _ hh => quoteMatch_none hh) _ _ _ h]
  rw [subScanF_eq_self (fun _ hh => codeBlockMatch_none hh) _ _ h]
  rw [subScanF_eq_self (fun _ hh => inlineCodeMatch_none hh) _ _ h]

/-! ## `str.strip()` is idempotent -/

lemma head?_dropWhile_not (p : Char → Bool) :
    ∀ (l : List Char) {c : Char}, (l.dropWhile p).head? = some c →
      p c = false := by
  intro l
  induction l with
  | nil => intro c h; simp at h
  | cons a as ih =>
    intro c h
    rw [List.dropWhile_cons] at h
    by_cases hp : p a = true
    · rw [if_pos hp] at h; exact ih h
    · rw [if_neg hp] at h
      simp only [List.head?_cons, Option.some.injEq] at h
      subst h
      exact eq_false_of_ne_true hp

lemma dropWhile_eq_self_of_head (p : Char → Bool) (l : List Char)
    (h : ∀ c, l.head? = some c → p c = false) : l.dropWhile p = l := by
  cases l with
  | nil => rfl
  | cons a as => rw [List.dropWhile_cons, if_neg (by simp [h a rfl])]

lemma getLast?_dropWhile (p : Char → Bool) (l : List Char)
    (hne : l.dropWhile p ≠ []) :
    (l.dropWhile p).getLast? = l.getLast? := by
  conv_rhs => rw [← List.takeWhile_append_dropWhile p l]
  rw [List.getLast?_append]
  cases hg : (l.dropWhile p).getLast? with
  | none => exact absurd (List.getLast?_eq_none_iff.mp hg) hne
  | some x => rfl

lemma pyStrip_getLast_not (l : List Char) {c : Char}
    (h : (pyStrip l).getLast? = some c) : isPySpace c = false := by
  unfold pyStrip at h
  rw [List.getLast?_reverse] at h
  exact head?_dropWhile_not _ _ h

lemma pyStrip_head_not (l : List Char) {c : Char}
    (h : (pyStrip l).head? = some c) : isPySpace c = false := by
  unfold pyStrip at h
  rw [List.head?_reverse] at h
  by_cases hne : ((l.dropWhile isPySpace).reverse.dropWhile isPySpace) = []
  · rw [hne] at h; simp at h
  · rw [getLast?_dropWhile _ _ hne, List.getLast?_reverse] at h
    exact head?_dropWhile_not _ _ h

lemma pyStrip_eq_self (l : List Char)
    (h1 : ∀ c, l.head? = some c → isPySpace c = false)
    (h2 : ∀ c, l.getLast? = some c → isPySpace c = false) :
    pyStrip l = l := by
  unfold pyStrip
  rw [dropWhile_eq_self_of_head _ _ h1]
  rw [dropWhile_eq_self_of_head _ _
    (fun c hc => h2 c (by rwa [List.head?_reverse] at hc))]
  exact List.reverse_reverse l

lemma pyStrip_idem (l : List Char) : pyStrip (pyStrip l) = pyStrip l :=
  pyStrip_eq_self _ (fun _ hc => pyStrip_head_not l hc)
    (fun _ hc => pyStrip_getLast_not l hc)

lemma mem_pyStrip {c : Char} {l : List Char} (h : c ∈ pyStrip l) : c ∈ l := by
  unfold pyStrip at h
  rw [List.mem_reverse] at h
  have h2 := (List.dropWhile_sublist isPySpace).subset h
  rw [List.mem_reverse] at h2
  exact (List.dropWhile_sublist isPySpace).subset h2

/-- Claim C3 (amended): `remove_markdown` is not idempotent in general (a
second application can strip markers newly exposed at a line start by the
first, see the counterexample); it is idempotent on every input containing
none of the markdown marker characters `#`, `*`, `_`, `-`, `+`, `[`, `>`,
`.`, backquote — on such texts each pass is the identity and only the
final trim acts, and trimming is idempotent. -/
theorem remove_markdown_idempotent_marker_free (s : String)
    (h : markerFree s = true) :
    remove_markdown_str (remove_markdown_str s) = remove_markdown_str s := by
  have h1 : ∀ c ∈ s.data, markerChars.contains c = false := by
    intro c hc
    have h2 := List.all_eq_true.mp h c hc
    simpa using h2
  have e1 : remove_markdown s.data = pyStrip s.data :=
    remove_markdown_eq_pyStrip h1
  unfold remove_markdown_str
  rw [show ∀ l : List Char, (String.mk l).data = l from fun _ => rfl]
  rw [e1]
  have h3 : ∀ c ∈ pyStrip s.data, markerChars.contains c = false :=
    fun c hc => h1 c (mem_pyStrip hc)
  rw [remove_markdown_eq_pyStrip h3, pyStrip_idem]

theorem remove_markdown_idempotent_marker_free_witness :
    remove_markdown_str (remove_markdown_str "hello world") =
      remove_markdown_str "hello world" :=
  remove_markdown_idempotent_marker_free "hello world" (by decide)
